import Mathlib

/-!
Shallow embedding of `wok/page.py`: the per-page pipeline of the wok static
site generator.  Python values appearing in the metadata dictionary are
modelled by the inductive type `Value`, Python dictionaries by association
lists, and Python exceptions by `Except PyErr`.  Machine-level details that
the claims do not touch (logging, the jinja2 template engine, the YAML
parser, the filesystem) are modelled as parameters or abstract outcomes.
-/

namespace Wok

/-- Python exceptions that the code under scrutiny can raise. -/
inductive PyErr where
  | attributeError
  | typeError
  | keyError
  | recursionError
  deriving DecidableEq, Repr

/-! ### String primitives

Python string methods used by `page.py`, implemented structurally over
`List Char` so that concrete runs reduce definitionally. -/

/-- Does the first list start with the second one? -/
def beginsWith : List Char → List Char → Bool
  | _, [] => true
  | [], _ :: _ => false
  | c :: cs, d :: ds => c == d && beginsWith cs ds

/-- Split a character list at the first occurrence of `sep`, returning the
part before and the part after; `none` when `sep` does not occur. -/
def findSub (sep : List Char) : List Char → Option (List Char × List Char)
  | [] => none
  | c :: cs =>
    if beginsWith (c :: cs) sep then some ([], (c :: cs).drop sep.length)
    else
      match findSub sep cs with
      | none => none
      | some (pre, post) => some (c :: pre, post)

/-- Python `s.split(sep, 1)`: at most one split, at the first occurrence of
the separator.  Mirrors line 67 of `page.py`. -/
def splitOnce (s sep : String) : String × Option String :=
  match findSub sep.toList s.toList with
  | none => (s, none)
  | some (pre, post) => (String.mk pre, some (String.mk post))

/-- Python `s.split(sep)` for a one-character separator (`'/'`, `','`, `'.'`
in `page.py`).  `"".split(sep)` is `[""]`, like in Python. -/
def splitChar (sep : Char) : List Char → List (List Char)
  | [] => [[]]
  | c :: cs =>
    match splitChar sep cs with
    | [] => [[c]]
    | p :: ps => if c == sep then [] :: p :: ps else (c :: p) :: ps

/-- Python `s.split(sep)` for one-character separators, on `String`. -/
def pySplitChar (sep : Char) (s : String) : List String :=
  (splitChar sep s.toList).map (fun l => String.mk l)

/-- Python `sep.join(parts)`. -/
def joinWith (sep : String) : List String → String
  | [] => ""
  | [x] => x
  | x :: y :: ys => x ++ sep ++ joinWith sep (y :: ys)

/-- Python whitespace, as stripped by `str.strip()`. -/
def isPySpace (c : Char) : Bool :=
  c == ' ' || c == '\t' || c == '\n' || c == '\r' || c == '\x0b' || c == '\x0c'

/-- Python `s.strip()`: drop whitespace from both ends. -/
def pyStrip (s : String) : String :=
  String.mk (((s.toList.dropWhile isPySpace).reverse.dropWhile isPySpace).reverse)

/-! ### Slugification

`util.slugify` lives in `wok/util.py`, which is not part of the sources at
hand; it is modelled from the specification instead. -/

/-- Is the character one of `a`-`z`, `0`-`9`? -/
def isLowerAlnum (c : Char) : Bool :=
  decide (97 ≤ c.toNat ∧ c.toNat ≤ 122) || decide (48 ≤ c.toNat ∧ c.toNat ≤ 57)

/-- A character of the slug character class `[a-z0-9-]`. -/
def isSlugChar (c : Char) : Bool :=
  isLowerAlnum c || c == '-'

/-- Does the string match the regular expression `^[a-z0-9-]*$`? -/
def matchesSlugRegex (s : String) : Bool :=
  s.toList.all isSlugChar

/-- Collapse each run of consecutive dashes into a single dash. -/
def collapseDash : List Char → List Char
  | [] => []
  | c :: cs =>
    match collapseDash cs with
    | [] => [c]
    | d :: ds => if c == '-' && d == '-' then d :: ds else c :: d :: ds

/-- Drop leading and trailing dashes. -/
def trimDashes (l : List Char) : List Char :=
  ((l.dropWhile (fun c => c == '-')).reverse.dropWhile (fun c => c == '-')).reverse

/-- Modelled from the spec: `util.slugify` (in `wok/util.py`, missing from the
sources) lowercases its input, collapses every run of non-alphanumeric
characters to a single `-`, and trims leading and trailing `-`. -/
def slugify (s : String) : String :=
  String.mk (trimDashes (collapseDash (s.toList.map
    (fun c => if isLowerAlnum c.toLower then c.toLower else '-'))))

/-! ### Author identity (`Page.Author`, lines 18-38) -/

/-- The fields of a `Page.Author` object: `raw`, `name`, `email`
(constructor defaults `raw=''`, `name=None`, `email=None`). -/
structure Author where
  raw : String
  name : Option String
  email : Option String
  deriving DecidableEq, Repr

/-- Split a character list at its first angle bracket. -/
def splitAtFirstAngle : List Char → Option (List Char × Char × List Char)
  | [] => none
  | c :: cs =>
    if c == '<' || c == '>' then some ([], c, cs)
    else
      match splitAtFirstAngle cs with
      | none => none
      | some (pre, a, post) => some (c :: pre, a, post)

/-- The regex `([^<>]*)( +<(.*@.*)>)$` of line 20 under `re.match`: group 1
may not contain angle brackets, so the `<` consumed is the first angle
bracket of the string and at least one space must immediately precede it
(the greedy group 1 gives back exactly one space); group 3 stretches from
that `<` to a `>` that must close the string (`$` also accepts the position
just before one final newline) and must contain `@` but, as `.` does not
match newlines, no newline.  Returns the pair (group 1, group 3). -/
def authorRegexMatch (raw : String) : Option (String × String) :=
  let cs := if raw.toList.getLast? == some '\n' then raw.toList.dropLast else raw.toList
  match splitAtFirstAngle cs with
  | none => none
  | some (pre, a, post) =>
    if a == '<' && pre.getLast? == some ' ' && post.getLast? == some '>'
        && post.dropLast.contains '@' && !(post.dropLast.contains '\n') then
      some (String.mk pre.dropLast, String.mk post.dropLast)
    else none

/-- The `Author` object built inside `Page.Author.parse` (lines 29-30) before
the method returns: `raw` from the argument, `name` and `email` from the
regex groups.  `parse` assigns these fields and then falls off the end of
the function, so this object is discarded. -/
def authorParseConstructed (raw : String) : Option Author :=
  match authorRegexMatch raw with
  | some (n, e) => some { raw := raw, name := some n, email := some e }
  | none => none

/-- Python truthiness test `not x` for an optional string: `None` and the
empty string are falsy. -/
def optStrFalsy : Option String → Bool
  | none => true
  | some s => s == ""

/-- `Page.Author.__str__` (lines 32-38): `raw` when `name` is falsy, `name`
when `email` is falsy, else `name <email>`. -/
def authorStr (a : Author) : String :=
  if optStrFalsy a.name then a.raw
  else if optStrFalsy a.email then a.name.getD ""
  else a.name.getD "" ++ " <" ++ a.email.getD "" ++ ">"

/-! ### Values and dictionaries -/

/-- A Python value as it can appear in the page metadata dictionary: the
YAML scalars and containers, plus the `Author` objects, `datetime` objects
(modelled by a clock reading) and the `Page` reference that the code itself
stores. -/
inductive Value where
  | vnull
  | vbool (b : Bool)
  | vint (n : Int)
  | vstr (s : String)
  | vlist (xs : List Value)
  | vdict (entries : List (String × Value))
  | vauthor (a : Author)
  | vtime (t : Nat)
  | vpage
  deriving Repr

/-- A Python dictionary with string keys, as an association list. -/
abbrev Dict := List (String × Value)

/-- Dictionary lookup (first binding wins). -/
def dictFind : List (String × Value) → String → Option Value
  | [], _ => none
  | (k, v) :: rest, key => if k == key then some v else dictFind rest key

/-- Python `key in d`. -/
def dictContains (d : List (String × Value)) (k : String) : Bool :=
  (dictFind d k).isSome

/-- Python `d[key] = v`: overwrite the existing binding in place, or append
a new one. -/
def dictSet : List (String × Value) → String → Value → List (String × Value)
  | [], key, v => [(key, v)]
  | (k, w) :: rest, key, v =>
    if k == key then (k, v) :: rest else (k, w) :: dictSet rest key v

/-- Python `d[key]` as an expression: `KeyError` when absent. -/
def dictGetItem (d : List (String × Value)) (k : String) : Except PyErr Value :=
  match dictFind d k with
  | some v => Except.ok v
  | none => Except.error PyErr.keyError

/-- Reading a metadata field through `Page.__getattr__` (lines 198-200):
a missing key silently yields `None`. -/
def getattrMeta (d : List (String × Value)) (k : String) : Value :=
  (dictFind d k).getD Value.vnull

/-- Python `v == None`: true exactly for `None`. -/
def Value.isNull : Value → Bool
  | .vnull => true
  | _ => false

/-- Python `v.split(sep)`: only strings carry the `split` attribute, every
other value raises an `AttributeError`. -/
def valueSplit (sep : Char) : Value → Except PyErr (List String)
  | .vstr s => Except.ok (pySplitChar sep s)
  | _ => Except.error PyErr.attributeError

/-- Use a value where a string is required (`+` with a string literal,
`os.path.join` component): non-strings raise a `TypeError`. -/
def valueAsStr : Value → Except PyErr String
  | .vstr s => Except.ok s
  | _ => Except.error PyErr.typeError

/-- Require a whole list of values to be strings. -/
def mapValuesToStrs : List Value → Except PyErr (List String)
  | [] => Except.ok []
  | v :: vs => do
    let s ← valueAsStr v
    let rest ← mapValuesToStrs vs
    pure (s :: rest)

/-- Python `for cat in v` where the code expects a list of strings:
`build_meta` always stores a list in the `category` slot before reaching
line 157, so only lists are iterated here; iterating `None` (the
`__getattr__` fallback) or another scalar raises a `TypeError`. -/
def valueIterStrs : Value → Except PyErr (List String)
  | .vlist vs => mapValuesToStrs vs
  | _ => Except.error PyErr.typeError

/-- Modelled from the spec: `util.slugify` applied to a metadata value.
The spec has `slugify` operate on title/slug strings; a non-string argument
is modelled as a `TypeError`. -/
def valueSlugify : Value → Except PyErr String
  | .vstr s => Except.ok (slugify s)
  | _ => Except.error PyErr.typeError

/-- `Page.Author.parse` (lines 27-30) as invoked on a metadata value:
`re.match` on a non-string raises a `TypeError`; a failed match returns
`None`, whose `.groups()` raises an `AttributeError`; on success the method
assigns the groups to a fresh `Author` and returns `None` (there is no
return statement), so the caller receives `None`. -/
def authorParse : Value → Except PyErr Value
  | .vstr raw =>
    match authorRegexMatch raw with
    | some _ => Except.ok Value.vnull
    | none => Except.error PyErr.attributeError
  | _ => Except.error PyErr.typeError

/-! ### The normalization steps of `Page.build_meta` (lines 82-160) -/

/-- Lines 99-106: a missing title is derived from the filename with its last
extension stripped (`'.'.join(filename.split('.')[:-1])`), falling back to
the full filename when that is empty. -/
def stepTitle (filename : String) (d : Dict) : Dict :=
  if dictContains d "title" then d
  else
    let t := joinWith "." (pySplitChar '.' filename).dropLast
    let t := if t == "" then filename else t
    dictSet d "title" (Value.vstr t)

/-- Lines 109-116: a missing slug is derived by slugifying the title; an
explicit slug is merely compared with its own slugified form (the comparison
only drives a warning) and kept. -/
def stepSlug (d : Dict) : Except PyErr Dict := do
  if !dictContains d "slug" then
    let t ← dictGetItem d "title"
    let s ← valueSlugify t
    pure (dictSet d "slug" (Value.vstr s))
  else
    let sl ← dictGetItem d "slug"
    let _ ← valueSlugify sl
    pure d

/-- Lines 119-122: a present author value goes through `Page.Author.parse`
(whose result, `None`, is stored); otherwise an empty `Author` object is
stored. -/
def stepAuthor (d : Dict) : Except PyErr Dict := do
  if dictContains d "author" then
    let a ← dictGetItem d "author"
    let parsed ← authorParse a
    pure (dictSet d "author" parsed)
  else
    pure (dictSet d "author" (Value.vauthor { raw := "", name := none, email := none }))

/-- Lines 125-131: a present category value is split on `/` (an
`AttributeError` for any non-string, `None` included), an absent one becomes
the empty list.  Line 129's `if self.meta['category'] == None: self.meta = []`
can never fire, because the slot just assigned always holds a list; were it
taken, the whole metadata dictionary would become a list and the next item
assignment (`self.meta['published'] = True`, line 134) would raise a
`TypeError`. -/
def stepCategory (d : Dict) : Except PyErr Dict := do
  let d ← if dictContains d "category" then do
      let c ← dictGetItem d "category"
      let parts ← valueSplit '/' c
      pure (dictSet d "category" (Value.vlist (parts.map Value.vstr)))
    else
      pure (dictSet d "category" (Value.vlist []))
  if (Value.isNull ((dictFind d "category").getD Value.vnull)) then
    Except.error PyErr.typeError
  else pure d

/-- Lines 133-134: `published` defaults to `True`. -/
def stepPublished (d : Dict) : Dict :=
  if !dictContains d "published" then dictSet d "published" (Value.vbool true) else d

/-- Lines 137-141: the `time` and then the `date` alias are copied over
`datetime` (so `date` wins when both are present), and a still-missing
`datetime` is filled with the current clock reading. -/
def stepDatetime (now : Nat) (d : Dict) : Dict :=
  let d := if dictContains d "time" then dictSet d "datetime" (getattrMeta d "time") else d
  let d := if dictContains d "date" then dictSet d "datetime" (getattrMeta d "date") else d
  if !dictContains d "datetime" then dictSet d "datetime" (Value.vtime now) else d

/-- Lines 144-150: missing tags become the empty list; otherwise the tags
value is split on `,` and every piece is stripped (the debug call on lines
149-150 only reads `slug` and has no effect). -/
def stepTags (d : Dict) : Except PyErr Dict := do
  if !dictContains d "tags" then
    pure (dictSet d "tags" (Value.vlist []))
  else
    let t ← dictGetItem d "tags"
    let parts ← valueSplit ',' t
    pure (dictSet d "tags" (Value.vlist ((parts.map pyStrip).map Value.vstr)))

/-- `posixpath.join` for two components, the behaviour of `os.path.join` on
the POSIX hosts this program runs on: an absolute second component replaces
the first, a first component that is empty or ends in `/` is extended
directly, anything else gets a separator in between. -/
def posixJoin (a b : String) : String :=
  if b.toList.head? == some '/' then b
  else if a == "" || a.toList.getLast? == some '/' then a ++ b
  else a ++ "/" ++ b

/-- Lines 153-160: a missing url is built by starting from `/`, path-joining
every category entry in order (`self.category` is read through
`__getattr__`), and finally path-joining `slug + '.html'`; a present url is
left untouched. -/
def stepUrl (d : Dict) : Except PyErr Dict := do
  if !dictContains d "url" then
    let cats ← valueIterStrs (getattrMeta d "category")
    let slugStr ← valueAsStr (getattrMeta d "slug")
    pure (dictSet d "url" (Value.vstr
      (posixJoin (cats.foldl posixJoin "/") (slugStr ++ ".html"))))
  else
    pure d

/-- `Page.build_meta` (lines 82-160) on a metadata dictionary, with the
current clock reading passed in for line 141. -/
def buildMeta (meta0 : Dict) (filename : String) (now : Nat) : Except PyErr Dict := do
  let d := stepTitle filename meta0
  let d ← stepSlug d
  let d ← stepAuthor d
  let d ← stepCategory d
  let d := stepPublished d
  let d := stepDatetime now d
  let d ← stepTags d
  stepUrl d

/-- `Page.build_meta` on the value produced by `yaml.load`: line 96 turns
`None` into the empty dictionary; a header parsed to anything that is not a
mapping (a string, list or number) ends in a `TypeError` at the first item
assignment or subscript of `build_meta`. -/
def buildMetaOf (v : Value) (filename : String) (now : Nat) : Except PyErr Dict :=
  match v with
  | Value.vnull => buildMeta [] filename now
  | Value.vdict d => buildMeta d filename now
  | _ => Except.error PyErr.typeError

/-- The observable results of `Page.__init__`: the body kept in
`self.original`, the normalized metadata, and the rendered body content. -/
structure PageResult where
  original : String
  meta : Dict
  content : String

/-- `Page.__init__` (lines 40-80).  `yamlLoad` stands for the external
`yaml.load`, `render` for the configured renderer (`renderers.Plain`, a
passthrough, by default; `renderers.py` is not among the sources).  The file
content is split at most once on `---`; with a header, the parsed header is
normalized by `build_meta` and the rest is rendered.  Without a delimiter
`self.meta` is never assigned, so `build_meta`'s first read of `self.meta`
(line 96) falls through to `__getattr__` (line 198), whose own read of
`self.meta` recurses without bound: Python raises a `RecursionError`. -/
def pageInit (yamlLoad : String → Value) (render : String → String)
    (fileContent : String) (filename : String) (now : Nat) :
    Except PyErr PageResult :=
  match splitOnce fileContent "---" with
  | (_, none) => Except.error PyErr.recursionError
  | (header, some body) => do
    let meta ← buildMetaOf (yamlLoad header) filename now
    pure { original := body, meta := meta, content := render body }

/-- `Page.render` (lines 162-174), restricted to the construction of the
template variable mapping: a falsy `templ_vars` argument is replaced by the
empty dictionary, and then `templ_vars.update({'page': self})` installs the
page itself under the key `page`, after the caller-supplied bindings. -/
def renderVars (templVars : Option Dict) : Dict :=
  let tv : Dict :=
    match templVars with
    | none => []
    | some d => d
  dictSet tv "page" Value.vpage

/-- The kinds of `OSError` relevant to `Page.write`. -/
inductive OSErrorKind where
  | eexist
  | eacces
  | other (n : Nat)
  deriving DecidableEq, Repr

/-- Lines 183-190 of `Page.write`: `os.makedirs` runs inside
`try ... except OSError`, whose handler only logs, so every `OSError` —
whatever its errno — is swallowed and control continues. -/
def writeMakedirs (outcome : Except OSErrorKind Unit) : Except OSErrorKind Unit :=
  match outcome with
  | Except.ok _ => Except.ok ()
  | Except.error _ => Except.ok ()

/-- `Page.write` (lines 176-194) over abstract filesystem outcomes: the
directory-creation outcome passes through the swallowing handler above, then
the file is opened and written. -/
def pageWrite (mkdirsOutcome : Except OSErrorKind Unit)
    (openWriteOutcome : Except OSErrorKind Unit) : Except OSErrorKind Unit := do
  let _ ← writeMakedirs mkdirsOutcome
  openWriteOutcome

/-- The tag-splitting rule in the specification's words (split on commas,
trim each piece, drop the empty pieces), stated for comparison with
`stepTags`. -/
def specTagsSplit (s : String) : List String :=
  ((pySplitChar ',' s).map pyStrip).filter (fun t => t != "")

/-- The dictionary of a successful normalization (the empty dictionary on
error); a convenience for stating concrete evaluations. -/
def metaOf (e : Except PyErr Dict) : Dict :=
  match e with
  | Except.ok d => d
  | Except.error _ => []

/-! ### Dictionary lemmas -/

theorem dictFind_set_self (d : List (String × Value)) (k : String) (v : Value) :
    dictFind (dictSet d k v) k = some v := by
  induction d with
  | nil => simp [dictSet, dictFind]
  | cons e rest ih =>
    obtain ⟨k0, v0⟩ := e
    by_cases hk : k0 = k
    · simp [dictSet, dictFind, beq_iff_eq, hk]
    · simp [dictSet, dictFind, beq_iff_eq, hk, ih]

theorem dictFind_set_ne (d : List (String × Value)) (k key : String) (v : Value)
    (hk : k ≠ key) : dictFind (dictSet d key v) k = dictFind d k := by
  have hk' : key ≠ k := Ne.symm hk
  induction d with
  | nil => simp [dictSet, dictFind, beq_iff_eq, hk']
  | cons e rest ih =>
    obtain ⟨k0, v0⟩ := e
    by_cases h0 : k0 = key
    · subst h0
      simp [dictSet, dictFind, beq_iff_eq, hk']
    · simp [dictSet, dictFind, beq_iff_eq, h0, ih]

theorem dictContains_eq (d : List (String × Value)) (k : String) :
    dictContains d k = (dictFind d k).isSome := rfl

/-! ### Preservation lemmas: each normalization step only writes its own key -/

theorem stepTitle_find_ne (f : String) (d : Dict) (k : String) (hk : k ≠ "title") :
    dictFind (stepTitle f d) k = dictFind d k := by
  unfold stepTitle
  split
  · rfl
  · exact dictFind_set_ne d k "title" _ hk

theorem stepSlug_find_ne {d d' : Dict} {k : String} (h : stepSlug d = Except.ok d')
    (hk : k ≠ "slug") : dictFind d' k = dictFind d k := by
  unfold stepSlug at h
  by_cases hc : dictContains d "slug"
  · simp only [hc, Bool.not_true, Bool.false_eq_true, if_false, ite_false] at h
    cases hg : dictFind d "slug" with
    | none => simp [dictGetItem, hg, Except.bind, bind] at h
    | some v =>
      cases v <;>
        simp [dictGetItem, hg, valueSlugify, Except.bind, bind, pure, Except.pure] at h
      subst h
      rfl
  · simp only [hc, Bool.not_false, if_true, ite_true] at h
    cases hg : dictFind d "title" with
    | none => simp [dictGetItem, hg, Except.bind, bind] at h
    | some v =>
      cases v <;>
        simp [dictGetItem, hg, valueSlugify, Except.bind, bind, pure, Except.pure] at h
      rw [← h]
      exact dictFind_set_ne d k "slug" _ hk

theorem stepAuthor_find_ne {d d' : Dict} {k : String} (h : stepAuthor d = Except.ok d')
    (hk : k ≠ "author") : dictFind d' k = dictFind d k := by
  unfold stepAuthor at h
  by_cases hc : dictContains d "author"
  · simp only [hc, ite_true] at h
    cases hg : dictFind d "author" with
    | none => simp [dictGetItem, hg, Except.bind, bind] at h
    | some v =>
      cases v <;>
        simp [dictGetItem, hg, authorParse, Except.bind, bind, pure, Except.pure] at h
      rename_i s
      cases hm : authorRegexMatch s with
      | none => rw [hm] at h; simp at h
      | some g =>
        rw [hm] at h
        simp at h
        rw [← h]
        exact dictFind_set_ne d k "author" _ hk
  · simp only [hc, Bool.false_eq_true, if_false, ite_false] at h
    simp [pure, Except.pure] at h
    rw [← h]
    exact dictFind_set_ne d k "author" _ hk

theorem stepCategory_find_ne {d d' : Dict} {k : String} (h : stepCategory d = Except.ok d')
    (hk : k ≠ "category") : dictFind d' k = dictFind d k := by
  unfold stepCategory at h
  by_cases hc : dictContains d "category"
  · simp only [hc, ite_true] at h
    cases hg : dictFind d "category" with
    | none => simp [dictGetItem, hg, Except.bind, bind] at h
    | some v =>
      cases v <;>
        simp [dictGetItem, hg, valueSplit, Except.bind, bind, pure, Except.pure,
          dictFind_set_self, Value.isNull] at h
      rw [← h]
      exact dictFind_set_ne d k "category" _ hk
  · simp only [hc, Bool.false_eq_true, if_false, ite_false] at h
    simp [Except.bind, bind, pure, Except.pure, dictFind_set_self, Value.isNull] at h
    rw [← h]
    exact dictFind_set_ne d k "category" _ hk

theorem stepPublished_find_ne (d : Dict) (k : String) (hk : k ≠ "published") :
    dictFind (stepPublished d) k = dictFind d k := by
  unfold stepPublished
  split
  · exact dictFind_set_ne d k "published" _ hk
  · rfl

theorem dictFind_cond_set {P : Prop} [Decidable P] {d : Dict} {key k : String} {v : Value}
    (hk : k ≠ key) : dictFind (if P then dictSet d key v else d) k = dictFind d k := by
  split
  · exact dictFind_set_ne d k key v hk
  · rfl

theorem stepDatetime_find_ne (now : Nat) (d : Dict) (k : String) (hk : k ≠ "datetime") :
    dictFind (stepDatetime now d) k = dictFind d k := by
  simp only [stepDatetime]
  rw [dictFind_cond_set hk, dictFind_cond_set hk, dictFind_cond_set hk]

theorem stepTags_find_ne {d d' : Dict} {k : String} (h : stepTags d = Except.ok d')
    (hk : k ≠ "tags") : dictFind d' k = dictFind d k := by
  unfold stepTags at h
  by_cases hc : dictContains d "tags"
  · simp only [hc, Bool.not_true, Bool.false_eq_true, if_false, ite_false] at h
    cases hg : dictFind d "tags" with
    | none => simp [dictGetItem, hg, Except.bind, bind] at h
    | some v =>
      cases v <;>
        simp [dictGetItem, hg, valueSplit, Except.bind, bind, pure, Except.pure] at h
      rw [← h]
      exact dictFind_set_ne d k "tags" _ hk
  · simp only [hc, Bool.not_false, if_true, ite_true] at h
    simp [pure, Except.pure] at h
    rw [← h]
    exact dictFind_set_ne d k "tags" _ hk

theorem stepUrl_find_ne {d d' : Dict} {k : String} (h : stepUrl d = Except.ok d')
    (hk : k ≠ "url") : dictFind d' k = dictFind d k := by
  unfold stepUrl at h
  by_cases hc : dictContains d "url"
  · simp only [hc, Bool.not_true, Bool.false_eq_true, if_false, ite_false] at h
    simp [pure, Except.pure] at h
    rw [← h]
  · simp only [hc, Bool.not_false, if_true, ite_true] at h
    cases hi : valueIterStrs (getattrMeta d "category") with
    | error e => rw [hi] at h; simp [Except.bind, bind] at h
    | ok cats =>
      rw [hi] at h
      cases hs : valueAsStr (getattrMeta d "slug") with
      | error e => rw [hs] at h; simp [Except.bind, bind] at h
      | ok slugStr =>
        rw [hs] at h
        simp [Except.bind, bind, pure, Except.pure] at h
        rw [← h]
        exact dictFind_set_ne d k "url" _ hk

/-! ### Shape lemmas for individual steps -/

theorem stepSlug_derived {d d' : Dict} (h : stepSlug d = Except.ok d')
    (habs : dictFind d "slug" = none) :
    ∃ t, dictFind d "title" = some (Value.vstr t) ∧
      d' = dictSet d "slug" (Value.vstr (slugify t)) := by
  unfold stepSlug at h
  have hc : dictContains d "slug" = false := by
    simp [dictContains, habs]
  simp only [hc, Bool.not_false, if_true, ite_true] at h
  cases hg : dictFind d "title" with
  | none => simp [dictGetItem, hg, Except.bind, bind] at h
  | some v =>
    cases v <;>
      simp [dictGetItem, hg, valueSlugify, Except.bind, bind, pure, Except.pure] at h
    rename_i s
    exact ⟨s, rfl, h.symm⟩

theorem stepCategory_shape {d d' : Dict} (h : stepCategory d = Except.ok d') :
    ∃ cats : List String, dictFind d' "category" = some (Value.vlist (cats.map Value.vstr)) := by
  unfold stepCategory at h
  by_cases hc : dictContains d "category"
  · simp only [hc, ite_true] at h
    cases hg : dictFind d "category" with
    | none => simp [dictGetItem, hg, Except.bind, bind] at h
    | some v =>
      cases v <;>
        simp [dictGetItem, hg, valueSplit, Except.bind, bind, pure, Except.pure,
          dictFind_set_self, Value.isNull] at h
      rename_i s
      exact ⟨pySplitChar '/' s, by rw [← h]; exact dictFind_set_self d "category" _⟩
  · simp only [hc, Bool.false_eq_true, if_false, ite_false] at h
    simp [Except.bind, bind, pure, Except.pure, dictFind_set_self, Value.isNull] at h
    exact ⟨[], by rw [← h]; exact dictFind_set_self d "category" _⟩

theorem stepTags_string {d d' : Dict} {s : String} (h : stepTags d = Except.ok d')
    (hs : dictFind d "tags" = some (Value.vstr s)) :
    dictFind d' "tags"
      = some (Value.vlist (((pySplitChar ',' s).map pyStrip).map Value.vstr)) := by
  unfold stepTags at h
  have hc : dictContains d "tags" = true := by
    simp [dictContains, hs]
  simp only [hc, Bool.not_true, Bool.false_eq_true, if_false, ite_false] at h
  simp [dictGetItem, hs, valueSplit, Except.bind, bind, pure, Except.pure] at h
  rw [← h, List.map_map]
  exact dictFind_set_self d "tags" _

theorem stepTags_absent {d d' : Dict} (h : stepTags d = Except.ok d')
    (hs : dictFind d "tags" = none) :
    dictFind d' "tags" = some (Value.vlist []) := by
  unfold stepTags at h
  have hc : dictContains d "tags" = false := by
    simp [dictContains, hs]
  simp only [hc, Bool.not_false, if_true, ite_true] at h
  simp [pure, Except.pure] at h
  rw [← h]
  exact dictFind_set_self d "tags" _

theorem mapValuesToStrs_ok {vs : List Value} {ss : List String}
    (h : mapValuesToStrs vs = Except.ok ss) : vs = ss.map Value.vstr := by
  induction vs generalizing ss with
  | nil =>
    simp [mapValuesToStrs, pure, Except.pure] at h
    subst h
    rfl
  | cons v vt ih =>
    cases v <;>
      simp [mapValuesToStrs, valueAsStr, Except.bind, bind, pure, Except.pure] at h
    rename_i s
    cases hr : mapValuesToStrs vt with
    | error e => rw [hr] at h; simp [Except.bind, bind, pure, Except.pure] at h
    | ok rest =>
      rw [hr] at h
      simp [Except.bind, bind, pure, Except.pure] at h
      rw [← h]
      simp [ih hr]

theorem stepUrl_absent {d d' : Dict} (h : stepUrl d = Except.ok d')
    (hu : dictFind d "url" = none) :
    ∃ (cats : List String) (slug : String),
      dictFind d "category" = some (Value.vlist (cats.map Value.vstr)) ∧
      dictFind d "slug" = some (Value.vstr slug) ∧
      d' = dictSet d "url"
        (Value.vstr (posixJoin (cats.foldl posixJoin "/") (slug ++ ".html"))) := by
  unfold stepUrl at h
  have hc : dictContains d "url" = false := by
    simp [dictContains, hu]
  simp only [hc, Bool.not_false, if_true, ite_true] at h
  cases hi : valueIterStrs (getattrMeta d "category") with
  | error e => rw [hi] at h; simp [Except.bind, bind] at h
  | ok cats =>
    rw [hi] at h
    cases hs : valueAsStr (getattrMeta d "slug") with
    | error e => rw [hs] at h; simp [Except.bind, bind] at h
    | ok slugStr =>
      rw [hs] at h
      simp [Except.bind, bind, pure, Except.pure] at h
      refine ⟨cats, slugStr, ?_, ?_, h.symm⟩
      · cases hg : dictFind d "category" with
        | none => rw [getattrMeta, hg] at hi; simp [valueIterStrs] at hi
        | some v =>
          rw [getattrMeta, hg] at hi
          cases v <;> simp [valueIterStrs] at hi
          rename_i vs
          rw [mapValuesToStrs_ok hi]
      · cases hg : dictFind d "slug" with
        | none => rw [getattrMeta, hg] at hs; simp [valueAsStr] at hs
        | some v =>
          rw [getattrMeta, hg] at hs
          cases v <;> simp [valueAsStr] at hs
          rw [hs]

theorem stepUrl_present {d d' : Dict} (h : stepUrl d = Except.ok d')
    (hu : dictContains d "url" = true) : d' = d := by
  unfold stepUrl at h
  simp only [hu, Bool.not_true, Bool.false_eq_true, if_false, ite_false] at h
  simp [pure, Except.pure] at h
  exact h.symm

/-! ### Inversion of the full pipeline -/

theorem buildMeta_inv {d : Dict} {f : String} {now : Nat} {m : Dict}
    (h : buildMeta d f now = Except.ok m) :
    ∃ d2 d3 d4 d6, stepSlug (stepTitle f d) = Except.ok d2 ∧
      stepAuthor d2 = Except.ok d3 ∧ stepCategory d3 = Except.ok d4 ∧
      stepTags (stepDatetime now (stepPublished d4)) = Except.ok d6 ∧
      stepUrl d6 = Except.ok m := by
  simp only [buildMeta] at h
  cases h2 : stepSlug (stepTitle f d) with
  | error e => rw [h2] at h; simp [Except.bind, bind] at h
  | ok d2 =>
    rw [h2] at h
    simp only [Except.bind, bind] at h
    cases h3 : stepAuthor d2 with
    | error e => rw [h3] at h; simp [Except.bind, bind] at h
    | ok d3 =>
      rw [h3] at h
      simp only [Except.bind, bind] at h
      cases h4 : stepCategory d3 with
      | error e => rw [h4] at h; simp [Except.bind, bind] at h
      | ok d4 =>
        rw [h4] at h
        simp only [Except.bind, bind] at h
        cases h6 : stepTags (stepDatetime now (stepPublished d4)) with
        | error e => rw [h6] at h; simp [Except.bind, bind] at h
        | ok d6 =>
          rw [h6] at h
          simp only [Except.bind, bind] at h
          exact ⟨d2, d3, d4, d6, rfl, h3, h4, h6, h⟩

/-! ### Character-class facts about `slugify` -/

theorem mem_collapseDash {c : Char} {l : List Char} (h : c ∈ collapseDash l) : c ∈ l := by
  induction l with
  | nil => simp [collapseDash] at h
  | cons a cs ih =>
    unfold collapseDash at h
    cases hr : collapseDash cs with
    | nil =>
      simp only [hr] at h
      simp at h
      simp [h]
    | cons d ds =>
      simp only [hr] at h
      by_cases hd : (a == '-' && d == '-') = true
      · rw [if_pos hd] at h
        exact List.mem_cons_of_mem a (ih (hr ▸ h))
      · rw [if_neg hd] at h
        rcases List.mem_cons.mp h with h1 | h2
        · simp [h1]
        · exact List.mem_cons_of_mem a (ih (hr ▸ h2))

theorem mem_trimDashes {c : Char} {l : List Char} (h : c ∈ trimDashes l) : c ∈ l := by
  unfold trimDashes at h
  have h1 := List.mem_reverse.mp h
  have h2 := List.Sublist.mem h1 (List.dropWhile_sublist _)
  have h3 := List.mem_reverse.mp h2
  exact List.Sublist.mem h3 (List.dropWhile_sublist _)

theorem slugify_matches (s : String) : matchesSlugRegex (slugify s) = true := by
  unfold matchesSlugRegex slugify
  rw [List.all_eq_true]
  intro c hc
  have hc2 := mem_collapseDash (mem_trimDashes hc)
  obtain ⟨a, _, ha⟩ := List.mem_map.mp hc2
  by_cases hl : isLowerAlnum a.toLower = true
  · rw [if_pos hl] at ha
    rw [← ha]
    simp [isSlugChar, hl]
  · rw [if_neg hl] at ha
    rw [← ha]
    rfl

/-! ### String facts used for the url construction -/

theorem toList_eq_nil {s : String} (h : s.toList = []) : s = "" := by
  cases s with
  | mk l =>
    cases h
    rfl

theorem toList_ne_nil_of_ne {s : String} (h : s ≠ "") : s.toList ≠ [] :=
  fun hl => h (toList_eq_nil hl)

theorem str_append_toList (a b : String) : (a ++ b).toList = a.toList ++ b.toList := rfl

theorem str_append_ne_right (a : String) {b : String} (hb : b ≠ "") : a ++ b ≠ "" := by
  intro h
  have : (a ++ b).toList = [] := by rw [h]; rfl
  rw [str_append_toList] at this
  exact toList_ne_nil_of_ne hb (List.append_eq_nil.mp this).2

theorem getLast_append_right (a : String) {b : String} (hb : b ≠ "") :
    (a ++ b).toList.getLast? = b.toList.getLast? := by
  rw [str_append_toList]
  exact List.getLast?_append_of_ne_nil _ (toList_ne_nil_of_ne hb)

theorem getLast_ne_slash {c : String} (h : '/' ∉ c.toList) :
    c.toList.getLast? ≠ some '/' := by
  cases hgl : c.toList.getLast? with
  | none => simp
  | some x =>
    intro he
    injection he with he
    subst he
    exact h (List.mem_of_mem_getLast? hgl)

theorem posixJoin_abs {a b : String} (hb : b.toList.head? = some '/') : posixJoin a b = b := by
  simp only [posixJoin, beq_iff_eq, Bool.or_eq_true]
  rw [if_pos hb]

theorem posixJoin_sep {a b : String} (hb : b.toList.head? ≠ some '/')
    (ha : a = "" ∨ a.toList.getLast? = some '/') : posixJoin a b = a ++ b := by
  simp only [posixJoin, beq_iff_eq, Bool.or_eq_true]
  rw [if_neg hb, if_pos ha]

theorem posixJoin_mid {a b : String} (hb : b.toList.head? ≠ some '/') (ha1 : a ≠ "")
    (ha2 : a.toList.getLast? ≠ some '/') : posixJoin a b = a ++ "/" ++ b := by
  have hcond : ¬(a = "" ∨ a.toList.getLast? = some '/') := by
    rintro (h | h)
    · exact ha1 h
    · exact ha2 h
  simp only [posixJoin, beq_iff_eq, Bool.or_eq_true]
  rw [if_neg hb, if_neg hcond]

/-- The concatenation `"/" ++ c₁ ++ "/" ++ c₂ ++ ...`: what path-joining a
sequence of clean components onto an existing path appends. -/
def joinPrefixed : List String → String
  | [] => ""
  | c :: cs => "/" ++ c ++ joinPrefixed cs

theorem joinWith_cons_eq (x : String) (xs : List String) :
    joinWith "/" (x :: xs) = x ++ joinPrefixed xs := by
  induction xs generalizing x with
  | nil => simp [joinWith, joinPrefixed]
  | cons y ys ih =>
    show x ++ "/" ++ joinWith "/" (y :: ys) = _
    rw [ih y]
    simp [joinPrefixed, String.append_assoc]

theorem joinPrefixed_append_one (xs : List String) (s : String) :
    joinPrefixed (xs ++ [s]) = joinPrefixed xs ++ ("/" ++ s) := by
  induction xs with
  | nil => simp [joinPrefixed]
  | cons y ys ih =>
    show "/" ++ y ++ joinPrefixed (ys ++ [s]) = "/" ++ y ++ joinPrefixed ys ++ ("/" ++ s)
    rw [ih]
    simp [String.append_assoc]

theorem foldl_posixJoin_clean (cs : List String) (acc : String)
    (hacc : acc ≠ "") (hlast : acc.toList.getLast? ≠ some '/')
    (hcs : ∀ c ∈ cs, c ≠ "" ∧ '/' ∉ c.toList) :
    cs.foldl posixJoin acc = acc ++ joinPrefixed cs
      ∧ cs.foldl posixJoin acc ≠ ""
      ∧ (cs.foldl posixJoin acc).toList.getLast? ≠ some '/' := by
  induction cs generalizing acc with
  | nil =>
    refine ⟨?_, hacc, hlast⟩
    show acc = acc ++ ""
    rw [String.append_empty]
  | cons c cs ih =>
    obtain ⟨hc1, hc2⟩ := hcs c (List.mem_cons_self c cs)
    have hhead : c.toList.head? ≠ some '/' := by
      cases hl : c.toList with
      | nil => exact absurd (toList_eq_nil hl) hc1
      | cons x t =>
        simp only [List.head?]
        intro he
        injection he with he
        subst he
        exact hc2 (by rw [hl]; exact List.mem_cons_self _ _)
    have hj : posixJoin acc c = acc ++ "/" ++ c := posixJoin_mid hhead hacc hlast
    have hacc' : acc ++ "/" ++ c ≠ "" := str_append_ne_right _ hc1
    have hlast' : (acc ++ "/" ++ c).toList.getLast? ≠ some '/' := by
      rw [getLast_append_right _ hc1]
      exact getLast_ne_slash hc2
    have hcs' : ∀ x ∈ cs, x ≠ "" ∧ '/' ∉ x.toList :=
      fun x hx => hcs x (List.mem_cons_of_mem c hx)
    obtain ⟨ih1, ih2, ih3⟩ := ih (acc ++ "/" ++ c) hacc' hlast' hcs'
    refine ⟨?_, ?_, ?_⟩
    · show (c :: cs).foldl posixJoin acc = _
      rw [List.foldl_cons, hj, ih1]
      show acc ++ "/" ++ c ++ joinPrefixed cs = acc ++ ("/" ++ c ++ joinPrefixed cs)
      simp [String.append_assoc]
    · rw [List.foldl_cons, hj]
      exact ih2
    · rw [List.foldl_cons, hj]
      exact ih3

theorem html_head_ne_slash (slug : String) (hs : '/' ∉ slug.toList) :
    (slug ++ ".html").toList.head? ≠ some '/' := by
  rw [str_append_toList]
  cases hl : slug.toList with
  | nil => simp
  | cons x t =>
    simp only [List.cons_append, List.head?]
    intro he
    injection he with he
    subst he
    exact hs (by rw [hl]; exact List.mem_cons_self _ _)

/-- Path-joining the category components and `slug + '.html'` onto `/`, for
nonempty slash-free components, is plain `/`-interspersed concatenation. -/
theorem posixJoin_url_clean (cats : List String) (slug : String)
    (hcats : ∀ c ∈ cats, c ≠ "" ∧ '/' ∉ c.toList) (hs : '/' ∉ slug.toList) :
    posixJoin (cats.foldl posixJoin "/") (slug ++ ".html")
      = "/" ++ joinWith "/" (cats ++ [slug ++ ".html"]) := by
  have hhead := html_head_ne_slash slug hs
  cases cats with
  | nil =>
    rw [List.foldl_nil]
    have hsep : posixJoin "/" (slug ++ ".html") = "/" ++ (slug ++ ".html") :=
      posixJoin_sep hhead (Or.inr rfl)
    rw [hsep]
    rfl
  | cons c cs =>
    obtain ⟨hc1, hc2⟩ := hcats c (List.mem_cons_self c cs)
    have hchead : c.toList.head? ≠ some '/' := by
      cases hl : c.toList with
      | nil => exact absurd (toList_eq_nil hl) hc1
      | cons x t =>
        simp only [List.head?]
        intro he
        injection he with he
        subst he
        exact hc2 (by rw [hl]; exact List.mem_cons_self _ _)
    have hstep : posixJoin "/" c = "/" ++ c := posixJoin_sep hchead (Or.inr rfl)
    have hacc : "/" ++ c ≠ "" := by
      intro h
      have : ("/" ++ c).toList = [] := by rw [h]; rfl
      rw [str_append_toList] at this
      simp at this
    have hlast : ("/" ++ c).toList.getLast? ≠ some '/' := by
      rw [getLast_append_right _ hc1]
      exact getLast_ne_slash hc2
    have hcs' : ∀ x ∈ cs, x ≠ "" ∧ '/' ∉ x.toList :=
      fun x hx => hcats x (List.mem_cons_of_mem c hx)
    obtain ⟨h1, h2, h3⟩ := foldl_posixJoin_clean cs ("/" ++ c) hacc hlast hcs'
    rw [h1] at h2 h3
    rw [List.foldl_cons, hstep, h1, posixJoin_mid hhead h2 h3]
    rw [List.cons_append, joinWith_cons_eq, joinPrefixed_append_one]
    simp [String.append_assoc]

/-! ### The claims -/

/-- C1: the claim states that a raw header carrying `category: null`
normalizes to a record whose `category` is the empty sequence with all other
fields untouched.  The code instead calls `.split('/')` on the `None` value
(line 126) and raises an `AttributeError`, so normalization of such a header
fails outright. -/
theorem claim1_null_category_raises :
    buildMeta [("category", Value.vnull)] "f.md" 0 = Except.error PyErr.attributeError := rfl

/-- C2: the claim states that a source file without a `---` delimiter loads
with the whole content as body and an empty metadata input.  On that path
the constructor never assigns `self.meta`, so `build_meta`'s first read of
`self.meta` (line 96) recurses through `__getattr__` (lines 198-200) without
bound and the load fails with a `RecursionError`. -/
theorem claim2_no_delimiter_recursion (yamlLoad : String → Value)
    (render : String → String) (content filename : String) (now : Nat)
    (h : (splitOnce content "---").2 = none) :
    pageInit yamlLoad render content filename now = Except.error PyErr.recursionError := by
  have h2 : splitOnce content "---" = ((splitOnce content "---").1, none) := by
    rw [← h]
  unfold pageInit
  rw [h2]

/-- C2 witness: the failure at the concrete delimiter-free file content
`"Hello"`. -/
theorem claim2_witness :
    pageInit (fun _ => Value.vnull) (fun s => s) "Hello" "hello.md" 0
      = Except.error PyErr.recursionError :=
  claim2_no_delimiter_recursion _ _ _ _ _ (by rfl)

/-- C3: the regex does extract name `"Jane Doe"` and email
`"jane@example.com"`, and the `Author` object built from those fields does
stringify to `"Jane Doe <jane@example.com>"`; but `Page.Author.parse` has no
return statement, so parsing returns `None` instead of that AuthorIdentity,
and `build_meta` stores `None` in the `author` slot. -/
theorem claim3_parse_returns_none :
    authorRegexMatch "Jane Doe <jane@example.com>" = some ("Jane Doe", "jane@example.com")
    ∧ authorParseConstructed "Jane Doe <jane@example.com>"
        = some { raw := "Jane Doe <jane@example.com>", name := some "Jane Doe",
                 email := some "jane@example.com" }
    ∧ authorStr { raw := "Jane Doe <jane@example.com>", name := some "Jane Doe",
                  email := some "jane@example.com" } = "Jane Doe <jane@example.com>"
    ∧ authorParse (Value.vstr "Jane Doe <jane@example.com>") = Except.ok Value.vnull
    ∧ stepAuthor [("author", Value.vstr "Jane Doe <jane@example.com>")]
        = Except.ok [("author", Value.vnull)] :=
  ⟨rfl, rfl, rfl, rfl, rfl⟩

/-- C4: the claim states that a raw author string not matching the
name-email pattern parses without raising, giving `name = raw` and no email.
The code's `re.match` returns `None` for such input and the subsequent
`.groups()` call raises an `AttributeError`, as shown on `"Just A Name"`. -/
theorem claim4_nonmatching_author_raises :
    authorRegexMatch "Just A Name" = none
    ∧ authorParse (Value.vstr "Just A Name") = Except.error PyErr.attributeError :=
  ⟨rfl, rfl⟩

/-- C5: the claim states that normalization is idempotent.  It is not: for
any input — here the empty header — the first run succeeds, but running
`build_meta` again on its own output raises a `TypeError` at the author
step, because `Page.Author.parse` calls `re.match` on the stored `Author`
object rather than a string. -/
theorem claim5_renormalize_raises :
    buildMeta [] "a.md" 0 = Except.ok
      [("title", Value.vstr "a"), ("slug", Value.vstr "a"),
       ("author", Value.vauthor { raw := "", name := none, email := none }),
       ("category", Value.vlist []), ("published", Value.vbool true),
       ("datetime", Value.vtime 0), ("tags", Value.vlist []),
       ("url", Value.vstr "/a.html")]
    ∧ buildMeta
      [("title", Value.vstr "a"), ("slug", Value.vstr "a"),
       ("author", Value.vauthor { raw := "", name := none, email := none }),
       ("category", Value.vlist []), ("published", Value.vbool true),
       ("datetime", Value.vtime 0), ("tags", Value.vlist []),
       ("url", Value.vstr "/a.html")] "a.md" 0 = Except.error PyErr.typeError :=
  ⟨rfl, rfl⟩

/-- C6 counterexample: the claim states every normalized slug — derived or
explicit — matches `^[a-z0-9-]*$`.  An explicit slug `"ABC"` is honored
verbatim (lines 113-116 only warn), and `"ABC"` does not match the regex. -/
theorem claim6_counterexample :
    buildMeta [("slug", Value.vstr "ABC")] "f.md" 0 = Except.ok
      [("slug", Value.vstr "ABC"), ("title", Value.vstr "f"),
       ("author", Value.vauthor { raw := "", name := none, email := none }),
       ("category", Value.vlist []), ("published", Value.vbool true),
       ("datetime", Value.vtime 0), ("tags", Value.vlist []),
       ("url", Value.vstr "/ABC.html")]
    ∧ matchesSlugRegex "ABC" = false :=
  ⟨rfl, rfl⟩

/-- C6 amended: whenever normalization succeeds on a raw header that has no
explicit slug, the derived slug matches `^[a-z0-9-]*$`; an explicit slug is
honored verbatim with only a warning when non-conforming. -/
theorem claim6_derived_slug_matches (d : Dict) (f : String) (now : Nat) (m : Dict)
    (habs : dictFind d "slug" = none) (h : buildMeta d f now = Except.ok m) :
    ∃ s, dictFind m "slug" = some (Value.vstr s) ∧ matchesSlugRegex s = true := by
  obtain ⟨d2, d3, d4, d6, h2, h3, h4, h6, h7⟩ := buildMeta_inv h
  have habs1 : dictFind (stepTitle f d) "slug" = none := by
    rw [stepTitle_find_ne f d "slug" (by decide)]
    exact habs
  obtain ⟨t, _, hd2⟩ := stepSlug_derived h2 habs1
  have hs7 : dictFind m "slug" = some (Value.vstr (slugify t)) := by
    rw [stepUrl_find_ne h7 (by decide), stepTags_find_ne h6 (by decide),
      stepDatetime_find_ne now _ "slug" (by decide),
      stepPublished_find_ne _ "slug" (by decide),
      stepCategory_find_ne h4 (by decide), stepAuthor_find_ne h3 (by decide), hd2]
    exact dictFind_set_self _ _ _
  exact ⟨slugify t, hs7, slugify_matches t⟩

/-- C6 witness: the amended statement at the concrete header
`{title: "Hi"}`. -/
theorem claim6_witness :
    ∃ s, dictFind
      [("title", Value.vstr "Hi"), ("slug", Value.vstr "hi"),
       ("author", Value.vauthor { raw := "", name := none, email := none }),
       ("category", Value.vlist []), ("published", Value.vbool true),
       ("datetime", Value.vtime 0), ("tags", Value.vlist []),
       ("url", Value.vstr "/hi.html")] "slug" = some (Value.vstr s)
      ∧ matchesSlugRegex s = true :=
  claim6_derived_slug_matches [("title", Value.vstr "Hi")] "hi.md" 0 _ (by rfl) (by rfl)

/-- C7 counterexample: the claim's rule drops empty pieces when splitting
tags.  For the raw tags value `"a,,b"` the code keeps the empty middle
piece, so its result is not the image of the claimed `["a","b"]`. -/
theorem claim7_counterexample :
    buildMeta [("title", Value.vstr "t"), ("tags", Value.vstr "a,,b")] "f.md" 0 = Except.ok
      [("title", Value.vstr "t"),
       ("tags", Value.vlist [Value.vstr "a", Value.vstr "", Value.vstr "b"]),
       ("slug", Value.vstr "t"),
       ("author", Value.vauthor { raw := "", name := none, email := none }),
       ("category", Value.vlist []), ("published", Value.vbool true),
       ("datetime", Value.vtime 0), ("url", Value.vstr "/t.html")]
    ∧ [Value.vstr "a", Value.vstr "", Value.vstr "b"]
        = (["a", "", "b"] : List String).map Value.vstr
    ∧ specTagsSplit "a,,b" = ["a", "b"]
    ∧ (["a", "", "b"] : List String) ≠ ["a", "b"] :=
  ⟨rfl, rfl, rfl, by decide⟩

/-- C7 amended: tags given as a string are split on `,` and each piece is
trimmed, but empty pieces are kept; absent tags yield the empty sequence;
the raw value `"a, b ,c"` still yields `["a","b","c"]`. -/
theorem claim7_tags_amended :
    (∀ (d : Dict) (f : String) (now : Nat) (m : Dict) (s : String),
      dictFind d "tags" = some (Value.vstr s) → buildMeta d f now = Except.ok m →
      dictFind m "tags"
        = some (Value.vlist (((pySplitChar ',' s).map pyStrip).map Value.vstr)))
    ∧ (∀ (d : Dict) (f : String) (now : Nat) (m : Dict),
      dictFind d "tags" = none → buildMeta d f now = Except.ok m →
      dictFind m "tags" = some (Value.vlist []))
    ∧ (pySplitChar ',' "a, b ,c").map pyStrip = ["a", "b", "c"] := by
  refine ⟨?_, ?_, rfl⟩
  · intro d f now m s hs h
    obtain ⟨d2, d3, d4, d6, h2, h3, h4, h6, h7⟩ := buildMeta_inv h
    have hs5 : dictFind (stepDatetime now (stepPublished d4)) "tags"
        = some (Value.vstr s) := by
      rw [stepDatetime_find_ne now _ "tags" (by decide),
        stepPublished_find_ne _ "tags" (by decide),
        stepCategory_find_ne h4 (by decide), stepAuthor_find_ne h3 (by decide),
        stepSlug_find_ne h2 (by decide), stepTitle_find_ne f d "tags" (by decide)]
      exact hs
    rw [stepUrl_find_ne h7 (by decide)]
    exact stepTags_string h6 hs5
  · intro d f now m hs h
    obtain ⟨d2, d3, d4, d6, h2, h3, h4, h6, h7⟩ := buildMeta_inv h
    have hs5 : dictFind (stepDatetime now (stepPublished d4)) "tags" = none := by
      rw [stepDatetime_find_ne now _ "tags" (by decide),
        stepPublished_find_ne _ "tags" (by decide),
        stepCategory_find_ne h4 (by decide), stepAuthor_find_ne h3 (by decide),
        stepSlug_find_ne h2 (by decide), stepTitle_find_ne f d "tags" (by decide)]
      exact hs
    rw [stepUrl_find_ne h7 (by decide)]
    exact stepTags_absent h6 hs5

/-- C7 witness: the amended statement at the concrete header
`{title: "t", tags: "a, b ,c"}`, whose normalized tags are
`["a","b","c"]`. -/
theorem claim7_witness :
    dictFind
      [("title", Value.vstr "t"),
       ("tags", Value.vlist [Value.vstr "a", Value.vstr "b", Value.vstr "c"]),
       ("slug", Value.vstr "t"),
       ("author", Value.vauthor { raw := "", name := none, email := none }),
       ("category", Value.vlist []), ("published", Value.vbool true),
       ("datetime", Value.vtime 0), ("url", Value.vstr "/t.html")] "tags"
      = some (Value.vlist [Value.vstr "a", Value.vstr "b", Value.vstr "c"]) :=
  claim7_tags_amended.1
    [("title", Value.vstr "t"), ("tags", Value.vstr "a, b ,c")] "f.md" 0 _ "a, b ,c"
    (by rfl) (by rfl)

/-- C8: with no url key, the url is the path-join of `/`, the category
segments in order, and `slug + ".html"` — plain `/`-interspersed
concatenation whenever the segments are clean (nonempty, slash-free); an
explicit url is taken verbatim; and the header `{title: "Hi"}` yields slug
`"hi"` and url `"/hi.html"`. -/
theorem claim8_url (d : Dict) (f : String) (now : Nat) (m : Dict) :
    (dictFind d "url" = none → buildMeta d f now = Except.ok m →
      ∃ (cats : List String) (slug : String),
        dictFind m "category" = some (Value.vlist (cats.map Value.vstr)) ∧
        dictFind m "slug" = some (Value.vstr slug) ∧
        dictFind m "url" = some (Value.vstr
          (posixJoin (cats.foldl posixJoin "/") (slug ++ ".html"))) ∧
        ((∀ c ∈ cats, c ≠ "" ∧ '/' ∉ c.toList) → '/' ∉ slug.toList →
          posixJoin (cats.foldl posixJoin "/") (slug ++ ".html")
            = "/" ++ joinWith "/" (cats ++ [slug ++ ".html"])))
    ∧ (∀ v, dictFind d "url" = some v → buildMeta d f now = Except.ok m →
        dictFind m "url" = some v)
    ∧ buildMeta [("title", Value.vstr "Hi")] "hi.md" 0 = Except.ok
        [("title", Value.vstr "Hi"), ("slug", Value.vstr "hi"),
         ("author", Value.vauthor { raw := "", name := none, email := none }),
         ("category", Value.vlist []), ("published", Value.vbool true),
         ("datetime", Value.vtime 0), ("tags", Value.vlist []),
         ("url", Value.vstr "/hi.html")] := by
  refine ⟨?_, ?_, rfl⟩
  · intro hu h
    obtain ⟨d2, d3, d4, d6, h2, h3, h4, h6, h7⟩ := buildMeta_inv h
    have hu6 : dictFind d6 "url" = none := by
      rw [stepTags_find_ne h6 (by decide), stepDatetime_find_ne now _ "url" (by decide),
        stepPublished_find_ne _ "url" (by decide), stepCategory_find_ne h4 (by decide),
        stepAuthor_find_ne h3 (by decide), stepSlug_find_ne h2 (by decide),
        stepTitle_find_ne f d "url" (by decide)]
      exact hu
    obtain ⟨cats, slug, hcat, hslug, hm⟩ := stepUrl_absent h7 hu6
    refine ⟨cats, slug, ?_, ?_, ?_, ?_⟩
    · rw [hm, dictFind_set_ne _ _ _ _ (by decide)]
      exact hcat
    · rw [hm, dictFind_set_ne _ _ _ _ (by decide)]
      exact hslug
    · rw [hm]
      exact dictFind_set_self _ _ _
    · intro hc hslash
      exact posixJoin_url_clean cats slug hc hslash
  · intro v hv h
    obtain ⟨d2, d3, d4, d6, h2, h3, h4, h6, h7⟩ := buildMeta_inv h
    have hv6 : dictFind d6 "url" = some v := by
      rw [stepTags_find_ne h6 (by decide), stepDatetime_find_ne now _ "url" (by decide),
        stepPublished_find_ne _ "url" (by decide), stepCategory_find_ne h4 (by decide),
        stepAuthor_find_ne h3 (by decide), stepSlug_find_ne h2 (by decide),
        stepTitle_find_ne f d "url" (by decide)]
      exact hv
    have hc6 : dictContains d6 "url" = true := by
      rw [dictContains_eq, hv6]
      rfl
    rw [stepUrl_present h7 hc6]
    exact hv6

/-- C8 witness: the url construction at the concrete header
`{title: "Hi"}`. -/
theorem claim8_witness :
    ∃ (cats : List String) (slug : String),
      dictFind
        [("title", Value.vstr "Hi"), ("slug", Value.vstr "hi"),
         ("author", Value.vauthor { raw := "", name := none, email := none }),
         ("category", Value.vlist []), ("published", Value.vbool true),
         ("datetime", Value.vtime 0), ("tags", Value.vlist []),
         ("url", Value.vstr "/hi.html")] "category"
          = some (Value.vlist (cats.map Value.vstr)) ∧
      dictFind
        [("title", Value.vstr "Hi"), ("slug", Value.vstr "hi"),
         ("author", Value.vauthor { raw := "", name := none, email := none }),
         ("category", Value.vlist []), ("published", Value.vbool true),
         ("datetime", Value.vtime 0), ("tags", Value.vlist []),
         ("url", Value.vstr "/hi.html")] "slug" = some (Value.vstr slug) ∧
      dictFind
        [("title", Value.vstr "Hi"), ("slug", Value.vstr "hi"),
         ("author", Value.vauthor { raw := "", name := none, email := none }),
         ("category", Value.vlist []), ("published", Value.vbool true),
         ("datetime", Value.vtime 0), ("tags", Value.vlist []),
         ("url", Value.vstr "/hi.html")] "url" = some (Value.vstr
          (posixJoin (cats.foldl posixJoin "/") (slug ++ ".html"))) ∧
      ((∀ c ∈ cats, c ≠ "" ∧ '/' ∉ c.toList) → '/' ∉ slug.toList →
        posixJoin (cats.foldl posixJoin "/") (slug ++ ".html")
          = "/" ++ joinWith "/" (cats ++ [slug ++ ".html"])) :=
  (claim8_url [("title", Value.vstr "Hi")] "hi.md" 0
    [("title", Value.vstr "Hi"), ("slug", Value.vstr "hi"),
     ("author", Value.vauthor { raw := "", name := none, email := none }),
     ("category", Value.vlist []), ("published", Value.vbool true),
     ("datetime", Value.vtime 0), ("tags", Value.vlist []),
     ("url", Value.vstr "/hi.html")]).1 (by rfl) (by rfl)

/-- C9: the claim states that only an "already exists" failure of directory
creation is tolerated while every other failure is surfaced.  The `except
OSError` handler on lines 185-190 only logs, so a permission-denied failure
is swallowed exactly like an "already exists" one — every `OSError` is. -/
theorem claim9_all_oserrors_swallowed :
    pageWrite (Except.error OSErrorKind.eexist) (Except.ok ()) = Except.ok ()
    ∧ pageWrite (Except.error OSErrorKind.eacces) (Except.ok ()) = Except.ok ()
    ∧ ∀ e : OSErrorKind, writeMakedirs (Except.error e) = Except.ok () :=
  ⟨rfl, rfl, fun _ => rfl⟩

/-- C10: `render` installs the page itself under the key `page` after
merging the caller-supplied variables, so for every caller mapping — even
one that binds `page` itself — the template receives the real page. -/
theorem claim10_page_wins (templVars : Option Dict) :
    dictFind (renderVars templVars) "page" = some Value.vpage := by
  unfold renderVars
  cases templVars with
  | none => rfl
  | some d => exact dictFind_set_self d "page" Value.vpage

/-- C10 witness: the page reference wins even against a caller mapping that
itself binds the key `page`. -/
theorem claim10_witness :
    dictFind (renderVars (some [("page", Value.vstr "impostor"), ("x", Value.vnull)]))
      "page" = some Value.vpage :=
  claim10_page_wins (some [("page", Value.vstr "impostor"), ("x", Value.vnull)])

end Wok
